import Mathlib

/-!
Shallow embedding of src/mus.c, the DMX MUS to MIDI translator, together with
proofs about the specification claims C1 to C10.  Bytes are modelled as `Nat`
masked with `% 256` at every point where the C code performs a `uint8_t`
conversion; the growable output buffer is a `List Nat` holding every byte up to
the high-water mark together with the `pos`, `dstsize` and `dstrem` counters of
`struct mus_ctx`.  All loops are written with explicit fuel so that every
definition evaluates inside the kernel; each fuel argument is chosen so that it
can never be exhausted on the arguments the program supplies.
-/

set_option maxRecDepth 16384
set_option maxHeartbeats 1600000

namespace Mus

/-- The fixed 15-entry MUS-controller to MIDI-controller table (`midimap` in mus.c). -/
def midimap : List Nat :=
  [0, 0, 0x01, 0x07, 0x0A, 0x0B, 0x5B, 0x5D, 0x40, 0x43, 0x78, 0x7B, 0x7E, 0x7F, 0x79]

/-- Growth increment of the output buffer (`DST_CHUNK` in mus.c). -/
def DST_CHUNK : Nat := 8192

/-- The tempo constant (`TEMPO` in mus.c). -/
def TEMPO : Nat := 0x001aa309

/-- Output-buffer state of `struct mus_ctx`: the bytes written so far (up to the
high-water mark), the write cursor `pos` (the value `dst_ptr - dst`), and the
`dstsize` / `dstrem` counters exactly as the C code maintains them. -/
structure MusCtx where
  dst : List Nat
  pos : Nat
  dstsize : Nat
  dstrem : Nat
deriving DecidableEq

/-- Model of the bytes the C program reads from outside defined storage:
`oobByte i` is the byte found at `midimap[i]` for an index `i ≥ 15`, and
`junk1 c` / `junk2 c` are the initial values of the uninitialized locals
`bit1` / `bit2` in the loop iteration whose payload cursor is `c`. -/
structure UBEnv where
  oobByte : Nat → Nat
  junk1 : Nat → Nat
  junk2 : Nat → Nat

/-- Environment that instantiates every indeterminate byte with 0. -/
def zeroEnv : UBEnv := ⟨fun _ => 0, fun _ => 0, fun _ => 0⟩

/-- Write one byte at position `p`: in place when `p` is below the high-water
mark, otherwise extending the buffer (fresh `calloc` storage is zero-filled,
hence the zero padding for skipped positions). -/
def writeByteAt (l : List Nat) (p : Nat) (b : Nat) : List Nat :=
  if p < l.length then l.set p b else l ++ List.replicate (p - l.length) 0 ++ [b]

/-- Write a list of bytes sequentially starting at position `p`. -/
def writeList (l : List Nat) (p : Nat) : List Nat → List Nat
  | [] => l
  | b :: bs => writeList (writeByteAt l p b) (p + 1) bs

/-- mus.c `resize_dst`: grow the buffer by `DST_CHUNK`.  Only the counters
matter in the model, since the byte store is unbounded. -/
def resize_dst (c : MusCtx) : MusCtx :=
  { c with dstsize := c.dstsize + DST_CHUNK, dstrem := c.dstrem + DST_CHUNK }

/-- The four big-endian bytes that `write4` emits for a `uint32_t` value. -/
def be32 (v : Nat) : List Nat :=
  [v >>> 24 % 256, v >>> 16 % 256, v >>> 8 % 256, v % 256]

/-- mus.c `write1`. -/
def write1 (c : MusCtx) (v : Nat) : MusCtx :=
  let c := if c.dstrem < 1 then resize_dst c else c
  { c with dst := writeByteAt c.dst c.pos (v % 256), pos := c.pos + 1, dstrem := c.dstrem - 1 }

/-- mus.c `write2` (big-endian). -/
def write2 (c : MusCtx) (v : Nat) : MusCtx :=
  let c := if c.dstrem < 2 then resize_dst c else c
  { c with dst := writeList c.dst c.pos [v >>> 8 % 256, v % 256],
           pos := c.pos + 2, dstrem := c.dstrem - 2 }

/-- mus.c `write4` (big-endian). -/
def write4 (c : MusCtx) (v : Nat) : MusCtx :=
  let c := if c.dstrem < 4 then resize_dst c else c
  { c with dst := writeList c.dst c.pos (be32 v),
           pos := c.pos + 4, dstrem := c.dstrem - 4 }

/-- The `while (ctx->dstsize < pos) resize_dst(ctx)` loop of `seekdst` and
`skipdst`.  Fuel `target + 1` always suffices since every round adds
`DST_CHUNK ≥ 1` to `size`. -/
def growSize : Nat → Nat → Nat → Nat
  | 0, size, _ => size
  | f + 1, size, target => if size < target then growSize f (size + DST_CHUNK) target else size

/-- mus.c `seekdst`. -/
def seekdst (c : MusCtx) (p : Nat) : MusCtx :=
  let sz := growSize (p + 1) c.dstsize p
  { c with pos := p, dstsize := sz, dstrem := sz - p }

/-- mus.c `skipdst` (only ever called with the positive offset 4). -/
def skipdst (c : MusCtx) (n : Nat) : MusCtx :=
  let newpos := c.pos + n
  let sz := growSize (newpos + 1) c.dstsize newpos
  { c with pos := newpos, dstsize := sz, dstrem := sz - newpos }

/-- mus.c `mus_getmidisize`: the `uint32_t` difference `dstsize - dstrem`. -/
def mus_getmidisize (c : MusCtx) : Nat :=
  (c.dstsize % 2 ^ 32 + (2 ^ 32 - c.dstrem % 2 ^ 32)) % 2 ^ 32

/-- mus.c `mus_getmididata`. -/
def mus_getmididata (c : MusCtx) : List Nat := c.dst

/-- First loop of `WriteVarLen`: pack the 7-bit groups into `buffer`; the
recursion follows `while ((value >>= 7) > 0)`, so the shifted value is tested
before each round.  Fuel `value + 1` always suffices. -/
def wvlBuildF : Nat → Nat → Nat → Nat
  | 0, buffer, _ => buffer
  | f + 1, buffer, value =>
    let v := value / 128
    if v = 0 then buffer else wvlBuildF f (buffer * 256 + 0x80 + v % 128) v

/-- Second loop of `WriteVarLen`: emit the low byte of `buffer`, continue with
`buffer >>= 8` while bit 7 of the emitted byte is set.  Fuel one larger than
the number of packed groups suffices. -/
def wvlEmitF : Nat → Nat → List Nat
  | 0, _ => []
  | f + 1, buffer =>
    if buffer &&& 0x80 ≠ 0 then buffer % 256 :: wvlEmitF f (buffer >>> 8) else [buffer % 256]

/-- Byte counter of the second loop of `WriteVarLen` (the returned `count`). -/
def wvlCountF : Nat → Nat → Nat
  | 0, _ => 0
  | f + 1, buffer =>
    if buffer &&& 0x80 ≠ 0 then 1 + wvlCountF f (buffer >>> 8) else 1

/-- mus.c `WriteVarLen`, returning the emitted bytes. -/
def WriteVarLen (value : Nat) : List Nat :=
  wvlEmitF (value + 2) (wvlBuildF (value + 1) (value % 128) value)

/-- The byte count that mus.c `WriteVarLen` returns. -/
def WriteVarLenCount (value : Nat) : Nat :=
  wvlCountF (value + 2) (wvlBuildF (value + 1) (value % 128) value)

/-- Byte read from the source buffer; a read past the provided bytes sees
zeroed memory in this model. -/
def eventAt (src : List Nat) (i : Nat) : Nat := src.getD i 0 % 256

/-- The MUS delta-time read loop `do { ... } while (*cur++ & 128)`, returning
the accumulated delta and the new cursor.  Fuel `src.length + 1` always
suffices because a byte outside `src` reads as 0 and stops the loop. -/
def readMusDelta (src : List Nat) : Nat → Nat → Nat → Nat × Nat
  | 0, p, acc => (acc, p)
  | f + 1, p, acc =>
    let b := eventAt src p
    let acc := acc * 128 + (b &&& 127)
    if b &&& 128 ≠ 0 then readMusDelta src f (p + 1) acc else (acc, p + 1)

/-- Event-type extraction `(event & 122) >> 4` of mus.c. -/
def typeOf (event : Nat) : Nat := (event &&& 122) >>> 4

/-- Result of the `switch` over the event type: the status and data bytes, the
data-byte count `bitc`, the source cursor after the payload, the updated
channel-volume array, and two ghost flags recording whether an out-of-table
`midimap` read happened and whether a diagnostic (`printf`) was produced. -/
structure EvOut where
  status : Nat
  bit1 : Nat
  bit2 : Nat
  bitc : Nat
  cur : Nat
  vol : List Nat
  oob : Bool
  anomaly : Bool
deriving DecidableEq

/-- The `switch ((event & 122) >> 4)` of `mus2midi`.  `cur0` points at the first
payload byte, `status0` is `channelMap[channel]` after the allocator ran, and
`volIdx` is the same value used as index into `channel_volume`.  Out-of-bounds
`midimap` reads yield `env.oobByte`, uninitialized locals yield `env.junk1` and
`env.junk2`. -/
def translateEvent (env : UBEnv) (src : List Nat) (channels scoreEnd : Nat)
    (event cur0 status0 volIdx : Nat) (vol : List Nat) : EvOut :=
  let t := typeOf event
  if t = 0 then
    ⟨status0 ||| 0x80, eventAt src cur0, 0x40, 2, cur0 + 1, vol, false, false⟩
  else if t = 1 then
    let b := eventAt src cur0
    let vol' := if b &&& 128 ≠ 0 then vol.set volIdx (eventAt src (cur0 + 1)) else vol
    let cur' := if b &&& 128 ≠ 0 then cur0 + 2 else cur0 + 1
    ⟨status0 ||| 0x90, b &&& 127, vol'.getD volIdx 0, 2, cur', vol', false, false⟩
  else if t = 2 then
    let b := eventAt src cur0
    ⟨status0 ||| 0xE0, (b &&& 1) >>> 6, (b >>> 1) &&& 127, 2, cur0 + 1, vol, false, false⟩
  else if t = 3 then
    let i := eventAt src cur0
    let bad := ! decide (i < 15)
    ⟨status0 ||| 0xB0, midimap.getD i (env.oobByte i % 256),
      if eventAt src (cur0 + 1) = 12 then (channels + 1) % 256 else 0,
      2, cur0 + 2, vol, bad, bad⟩
  else if t = 4 then
    if eventAt src cur0 = 0 then
      ⟨status0 ||| 0xC0, eventAt src (cur0 + 1), env.junk2 cur0 % 256, 1, cur0 + 2, vol,
        false, false⟩
    else
      let i := eventAt src cur0
      let bad := ! decide (i < 15)
      ⟨status0 ||| 0xB0, midimap.getD i (env.oobByte i % 256), eventAt src (cur0 + 1),
        2, cur0 + 2, vol, bad, bad⟩
  else if t = 6 then
    ⟨0xFF, 0x2F, 0x00, 2, cur0, vol, false, ! decide (cur0 = scoreEnd)⟩
  else
    ⟨status0, env.junk1 cur0 % 256, env.junk2 cur0 % 256, 2, cur0, vol, false, false⟩

/-- State of the main translation loop of `mus2midi`.  `allocOrder` is a ghost
trace of the MIDI channel numbers handed out by the first-use allocator, in
allocation order; `oobRead` and `anomaly` are ghost flags accumulating the
`EvOut` flags. -/
structure LoopState where
  ctx : MusCtx
  cur : Nat
  delta_time : Nat
  channelMap : List Int
  channel_volume : List Nat
  currentChannel : Nat
  allocOrder : List Nat
  oobRead : Bool
  anomaly : Bool
deriving DecidableEq

/-- Lines 357 to 366 of mus.c: copy the per-event scratch buffer into the
output, resizing once when fewer than `sizeof(temp_buffer)*32 = 1024` bytes
remain, and also (incorrectly) adding the copied length to `dstsize`. -/
def writeChunk (c : MusCtx) (bytes : List Nat) : MusCtx :=
  if bytes = [] then c
  else
    let c := if c.dstrem < 1024 then resize_dst c else c
    { dst := writeList c.dst c.pos bytes, pos := c.pos + bytes.length,
      dstsize := c.dstsize + bytes.length, dstrem := c.dstrem - bytes.length }

/-- The channel map after the first-use allocator ran on the current event
(lines 281 to 289 of mus.c). -/
def allocMap (src : List Nat) (s : LoopState) : List Int :=
  if s.channelMap.getD (eventAt src s.cur % 16) (-1) < 0 then
    s.channelMap.set (eventAt src s.cur % 16) (Int.ofNat s.currentChannel)
  else s.channelMap

/-- The value of the local `ev` of one loop iteration: the `switch` applied to
the current event byte, with `status0` and the volume index both equal to
`channelMap[channel]` after the allocator ran. -/
def stepEv (env : UBEnv) (src : List Nat) (channels scoreEnd : Nat) (s : LoopState) : EvOut :=
  translateEvent env src channels scoreEnd (eventAt src s.cur) (s.cur + 1)
    (((allocMap src s).getD (eventAt src s.cur % 16) 0).toNat % 256)
    ((allocMap src s).getD (eventAt src s.cur % 16) 0).toNat
    s.channel_volume

/-- The bytes one loop iteration copies to the output: the delta time, the
allocator side-effect bytes (when a channel was just assigned), the status
byte, and one or two data bytes. -/
def eventOut (env : UBEnv) (src : List Nat) (channels scoreEnd : Nat) (s : LoopState) :
    List Nat :=
  WriteVarLen s.delta_time
  ++ (if s.channelMap.getD (eventAt src s.cur % 16) (-1) < 0 then
        [(0xB0 + s.currentChannel) % 256, 0x07, 127, 0x00]
      else [])
  ++ [(stepEv env src channels scoreEnd s).status, (stepEv env src channels scoreEnd s).bit1]
  ++ (if (stepEv env src channels scoreEnd s).bitc = 2
      then [(stepEv env src channels scoreEnd s).bit2] else [])

/-- One iteration of the main `while (cur < end)` loop of `mus2midi`: read the
event byte, emit the delta time, run the first-use channel allocator, run the
event `switch`, copy the scratch bytes out, and read the following MUS delta
time when bit 7 of the event byte is set. -/
def stepEvent (env : UBEnv) (src : List Nat) (channels scoreEnd : Nat) (s : LoopState) :
    LoopState :=
  let event := eventAt src s.cur
  let ev := stepEv env src channels scoreEnd s
  let ctx := writeChunk s.ctx (eventOut env src channels scoreEnd s)
  let delta' := if event &&& 128 ≠ 0 then (readMusDelta src (src.length + 1) ev.cur 0).1 else 0
  let cur' := if event &&& 128 ≠ 0 then (readMusDelta src (src.length + 1) ev.cur 0).2 else ev.cur
  { ctx := ctx, cur := cur', delta_time := delta',
    channelMap := allocMap src s,
    channel_volume := ev.vol,
    currentChannel := if s.channelMap.getD (eventAt src s.cur % 16) (-1) < 0 then
                        (if s.currentChannel + 1 = 9 then 10 else s.currentChannel + 1)
                      else s.currentChannel,
    allocOrder := if s.channelMap.getD (eventAt src s.cur % 16) (-1) < 0 then
                    s.allocOrder ++ [s.currentChannel]
                  else s.allocOrder,
    oobRead := s.oobRead || ev.oob, anomaly := s.anomaly || ev.anomaly }

/-- The main loop of `mus2midi` with explicit fuel; `mus2midi` supplies fuel
`scoreEnd`, which is sufficient because every iteration advances the cursor by
at least one. -/
def musLoop (env : UBEnv) (src : List Nat) (channels scoreEnd : Nat) :
    Nat → LoopState → LoopState
  | 0, s => s
  | f + 1, s =>
    if s.cur < scoreEnd then musLoop env src channels scoreEnd f (stepEvent env src channels scoreEnd s)
    else s

/-- Little-endian `uint16_t` at byte offset `i` of the input (the `memcpy` into
`MUSheader` on a little-endian host; see the TODO note in mus.c). -/
def le16 (data : List Nat) (i : Nat) : Nat := eventAt data i + 256 * eventAt data (i + 1)

/-- The `scoreLen` field of the MUS header. -/
def headerScoreLen (data : List Nat) : Nat := le16 data 4

/-- The `scoreStart` field of the MUS header. -/
def headerScoreStart (data : List Nat) : Nat := le16 data 6

/-- The `channels` field of the MUS header (count of primary channels). -/
def headerChannels (data : List Nat) : Nat := le16 data 8

/-- The fixed writes of `mus2midi` before the main loop: MIDI file header,
track tag, the 4 reserved track-length bytes, the tempo meta event and the
percussion full-volume event.  Returns the resulting buffer state together
with `begin_track_pos` and `track_size_pos`. -/
def setup : MusCtx × Nat × Nat :=
  let c : MusCtx := ⟨[], 0, DST_CHUNK, DST_CHUNK⟩
  let c := write1 c 77
  let c := write1 c 84
  let c := write1 c 104
  let c := write1 c 100
  let c := write4 c 6
  let c := write2 c 0
  let c := write2 c 1
  let c := write2 c 0x0059
  let begin_track_pos := c.pos
  let c := write1 c 77
  let c := write1 c 84
  let c := write1 c 114
  let c := write1 c 107
  let track_size_pos := c.pos
  let c := skipdst c 4
  let c := write1 c 0x00
  let c := write1 c 0xff
  let c := write2 c 0x5103
  let c := write1 c (TEMPO &&& 0x000000ff)
  let c := write1 c ((TEMPO &&& 0x0000ff00) >>> 8)
  let c := write1 c ((TEMPO &&& 0x00ff0000) >>> 16)
  let c := write1 c 0x00
  let c := write1 c 0xB9
  let c := write1 c 0x07
  let c := write1 c 127
  (c, begin_track_pos, track_size_pos)

/-- Loop state right before the main loop: channel 15 pre-mapped to MIDI
channel 9, every volume cache entry 0x40, every other channel unassigned. -/
def initLoopState (c : MusCtx) (cur : Nat) : LoopState :=
  ⟨c, cur, 0, (List.replicate 16 (-1 : Int)).set 15 9, List.replicate 16 0x40, 0, [],
    false, false⟩

/-- End offset of the score: `data + scoreStart + scoreLen`. -/
def scoreEndOf (data : List Nat) : Nat := headerScoreStart data + headerScoreLen data

/-- Lines 381 to 388 of mus.c, applied after the main loop: patch the reserved
track-length field (`current_pos - begin_track_pos - sizeof(MidiTrackChunk)`)
at `track_size_pos`, seek back to the end, and overwrite `dstsize` with the
final cursor position (`ctx->dstsize = ctx->dst_ptr - ctx->dst`; the line
`ctx->dstrem = 0` is commented out in the source and hence absent here). -/
def patchFinish (c : MusCtx) : MusCtx :=
  let current_pos := c.pos
  let c2 := seekdst c setup.2.2
  let c3 := write4 c2 (current_pos - setup.2.1 - 8)
  let c4 := seekdst c3 current_pos
  { c4 with dstsize := c4.pos }

/-- The loop state `mus2midi` returns: the loop-final state with the patched
output buffer. -/
def finishState (s : LoopState) : LoopState := { s with ctx := patchFinish s.ctx }

/-- mus.c `mus2midi`: `none` exactly when the header declares more than 15
primary channels; otherwise the final loop state, whose buffer has the track
length patched in and `dstsize` overwritten with the final cursor position. -/
def mus2midi (env : UBEnv) (data : List Nat) : Option LoopState :=
  if 15 < headerChannels data then none
  else some (finishState (musLoop env data (headerChannels data) (scoreEndOf data)
    (scoreEndOf data) (initLoopState setup.1 (headerScoreStart data))))

/-- Specification-side encoder, following the words of spec section 4.2: the
7-bit groups of `v` above the lowest one, most significant group first, each
carrying the continuation bit 0x80. -/
def contGroups (v : Nat) : List Nat :=
  if h : v = 0 then [] else contGroups (v / 128) ++ [128 + v % 128]
termination_by v
decreasing_by exact Nat.div_lt_self (Nat.pos_of_ne_zero h) (by norm_num)

/-- Specification-side MIDI variable-length-quantity decoder: accumulate
`value * 128 + (byte & 0x7F)` over the bytes. -/
def vlqDecode (l : List Nat) : Nat := l.foldl (fun a b => a * 128 + (b &&& 127)) 0

/-- The 20-byte MUS file of the round-trip scenario: header with
`scoreLen = 4`, `scoreStart = 16`, `channels = 1`; score consisting of one
KeyOn on MUS channel 0 (note byte 0xBC = note 60 with the volume bit, explicit
volume 100) followed by the End event 0x60. -/
def c1buf : List Nat :=
  [77, 85, 83, 26, 4, 0, 16, 0, 1, 0, 0, 0, 0, 0, 0, 0, 0x10, 0xBC, 0x64, 0x60]

/-- The 45 output bytes `mus2midi` produces for `c1buf`. -/
def c1dst : List Nat :=
  [77, 84, 104, 100, 0, 0, 0, 6, 0, 0, 0, 1, 0, 89,
   77, 84, 114, 107, 0, 0, 0, 23,
   0, 255, 81, 3, 9, 163, 26,
   0, 185, 7, 127,
   0, 176, 7, 127, 0, 144, 60, 100,
   0, 255, 47, 0]

/-- Variant of `c1buf` whose single ChannelMode event carries the payload
bytes 12 (the mono-mode table index) and 0. -/
def c3buf : List Nat :=
  [77, 85, 83, 26, 4, 0, 16, 0, 1, 0, 0, 0, 0, 0, 0, 0, 0x30, 12, 0, 0x60]

/-- MUS file whose score is one type-5 (unknown) event on channel 15 followed
by the End event on channel 15. -/
def c4buf : List Nat :=
  [77, 85, 83, 26, 2, 0, 16, 0, 1, 0, 0, 0, 0, 0, 0, 0, 0x5F, 0x6F]

/-- Variant of `c3buf` whose ChannelMode event carries the out-of-table
controller index 20. -/
def c5buf : List Nat :=
  [77, 85, 83, 26, 4, 0, 16, 0, 1, 0, 0, 0, 0, 0, 0, 0, 0x30, 20, 0, 0x60]

/-- MUS file with `channels = 0`, `scoreLen = 1`, whose score is a single End
event on channel 15. -/
def c7buf : List Nat :=
  [77, 85, 83, 26, 1, 0, 16, 0, 0, 0, 0, 0, 0, 0, 0, 0, 0x6F]

/-- The final loop state `mus2midi zeroEnv c7buf` reaches. -/
def c7state : LoopState :=
  ⟨⟨[77, 84, 104, 100, 0, 0, 0, 6, 0, 0, 0, 1, 0, 89,
     77, 84, 114, 107, 0, 0, 0, 15,
     0, 255, 81, 3, 9, 163, 26,
     0, 185, 7, 127,
     0, 255, 47, 0], 37, 37, 8159⟩,
   17, 0, [-1, -1, -1, -1, -1, -1, -1, -1, -1, -1, -1, -1, -1, -1, -1, 9],
   [64, 64, 64, 64, 64, 64, 64, 64, 64, 64, 64, 64, 64, 64, 64, 64], 0, [], false, false⟩

/-- The MIDI channel handed out by the `n`-th first-use allocation (0-based):
counting up from 0 and skipping 9. -/
def allocSeq (n : Nat) : Nat := if n < 9 then n else n + 1

/-- Invariant of the channel allocator: the map has its 16 entries, MUS channel
15 is mapped to MIDI channel 9, no melodic channel is ever mapped to 9, the
ghost allocation trace is exactly `allocSeq 0, allocSeq 1, ...`, and the next
channel to hand out is `allocSeq` of the number of allocations so far. -/
def ChannelInv (s : LoopState) : Prop :=
  s.channelMap.length = 16
  ∧ s.channelMap.getD 15 (-1) = 9
  ∧ (∀ ch, ch < 15 → s.channelMap.getD ch (-1) ≠ 9)
  ∧ s.allocOrder = (List.range s.allocOrder.length).map allocSeq
  ∧ s.currentChannel = allocSeq s.allocOrder.length

/-- Loop state after the first (KeyOn) event of the `c1buf` run. -/
def c1s1 : LoopState :=
  ⟨⟨[77, 84, 104, 100, 0, 0, 0, 6, 0, 0, 0, 1, 0, 89,
     77, 84, 114, 107, 0, 0, 0, 0,
     0, 255, 81, 3, 9, 163, 26,
     0, 185, 7, 127,
     0, 176, 7, 127, 0, 144, 60, 100], 41, 8200, 8151⟩,
   19, 0, [0, -1, -1, -1, -1, -1, -1, -1, -1, -1, -1, -1, -1, -1, -1, 9],
   [100, 64, 64, 64, 64, 64, 64, 64, 64, 64, 64, 64, 64, 64, 64, 64], 1, [0],
   false, false⟩

/-- Loop state after the second (End) event of the `c1buf` run, before the
track-length patch. -/
def c1s2 : LoopState :=
  ⟨⟨[77, 84, 104, 100, 0, 0, 0, 6, 0, 0, 0, 1, 0, 89,
     77, 84, 114, 107, 0, 0, 0, 0,
     0, 255, 81, 3, 9, 163, 26,
     0, 185, 7, 127,
     0, 176, 7, 127, 0, 144, 60, 100,
     0, 255, 47, 0], 45, 8204, 8147⟩,
   20, 0, [0, -1, -1, -1, -1, -1, -1, -1, -1, -1, -1, -1, -1, -1, -1, 9],
   [100, 64, 64, 64, 64, 64, 64, 64, 64, 64, 64, 64, 64, 64, 64, 64], 1, [0],
   false, false⟩

/-- Final loop state of `mus2midi _ c1buf`. -/
def c1final : LoopState :=
  ⟨⟨c1dst, 45, 45, 8159⟩,
   20, 0, [0, -1, -1, -1, -1, -1, -1, -1, -1, -1, -1, -1, -1, -1, -1, 9],
   [100, 64, 64, 64, 64, 64, 64, 64, 64, 64, 64, 64, 64, 64, 64, 64], 1, [0],
   false, false⟩

/-- Small loop state used in witnesses: empty output buffer, cursor 0, MUS
channel 0 already mapped to MIDI channel 0. -/
def wChState : LoopState :=
  ⟨⟨[], 0, 8192, 8192⟩, 0, 0, ((List.replicate 16 (-1 : Int)).set 15 9).set 0 0,
   List.replicate 16 64, 1, [0], false, false⟩

theorem writeByteAt_append (l : List Nat) (b : Nat) : writeByteAt l l.length b = l ++ [b] := by
  simp [writeByteAt]

theorem writeList_append (bs : List Nat) : ∀ l : List Nat, writeList l l.length bs = l ++ bs := by
  induction bs with
  | nil => intro l; simp [writeList]
  | cons b bs ih =>
    intro l
    simp only [writeList, writeByteAt_append]
    have h2 : l.length + 1 = (l ++ [b]).length := by simp
    rw [h2, ih (l ++ [b])]
    simp

theorem take_succ_set (l : List Nat) (p : Nat) (b : Nat) (h : p < l.length) :
    (l.set p b).take (p + 1) = l.take p ++ [b] := by
  induction l generalizing p with
  | nil => simp at h
  | cons a l ih =>
    cases p with
    | zero => simp
    | succ p => simp [ih p (by simpa using h)]

theorem drop_set_ge (l : List Nat) (p n : Nat) (b : Nat) (h : p < n) :
    (l.set p b).drop n = l.drop n := by
  induction l generalizing p n with
  | nil => simp
  | cons a l ih =>
    cases p with
    | zero =>
      cases n with
      | zero => omega
      | succ n => simp
    | succ p =>
      cases n with
      | zero => omega
      | succ n => simpa using ih p n (by omega)

theorem writeList_inbounds (bs : List Nat) :
    ∀ (l : List Nat) (p : Nat), p + bs.length ≤ l.length →
      writeList l p bs = l.take p ++ bs ++ l.drop (p + bs.length) := by
  induction bs with
  | nil =>
    intro l p h
    simp [writeList]
  | cons b bs ih =>
    intro l p h
    have hp : p < l.length := by simp at h; omega
    have hlen : p + 1 + bs.length ≤ (l.set p b).length := by simp at h ⊢; omega
    simp only [writeList, writeByteAt, if_pos hp]
    rw [ih (l.set p b) (p + 1) hlen]
    rw [take_succ_set l p b hp, drop_set_ge l p (p + 1 + bs.length) b (by omega)]
    rw [show p + (b :: bs).length = p + 1 + bs.length by simp; omega]
    simp

theorem resize_dst_dst (c : MusCtx) : (resize_dst c).dst = c.dst := rfl

theorem resize_dst_pos (c : MusCtx) : (resize_dst c).pos = c.pos := rfl

theorem writeChunk_append (c : MusCtx) (bytes : List Nat) (h : c.pos = c.dst.length)
    (hb : bytes ≠ []) :
    (writeChunk c bytes).dst = c.dst ++ bytes
    ∧ (writeChunk c bytes).pos = c.pos + bytes.length := by
  unfold writeChunk
  rw [if_neg hb]
  constructor
  · show writeList (if c.dstrem < 1024 then resize_dst c else c).dst
        (if c.dstrem < 1024 then resize_dst c else c).pos bytes = c.dst ++ bytes
    split
    · simp only [resize_dst_dst, resize_dst_pos]
      rw [h]
      exact writeList_append bytes c.dst
    · rw [h]
      exact writeList_append bytes c.dst
  · show (if c.dstrem < 1024 then resize_dst c else c).pos + bytes.length
        = c.pos + bytes.length
    split <;> rfl

theorem writeChunk_posinv (c : MusCtx) (bytes : List Nat) (h : c.pos = c.dst.length) :
    (writeChunk c bytes).pos = (writeChunk c bytes).dst.length
    ∧ c.pos ≤ (writeChunk c bytes).pos := by
  by_cases hb : bytes = []
  · subst hb; simp [writeChunk, h]
  · obtain ⟨h1, h2⟩ := writeChunk_append c bytes h hb
    rw [h1, h2, h]
    simp

theorem musLoop_exit (env : UBEnv) (src : List Nat) (channels scoreEnd : Nat) :
    ∀ (f : Nat) (s : LoopState), ¬ s.cur < scoreEnd →
      musLoop env src channels scoreEnd f s = s := by
  intro f s h
  cases f with
  | zero => rfl
  | succ f => simp [musLoop, h]

theorem musLoop_step (env : UBEnv) (src : List Nat) (channels scoreEnd : Nat)
    (f : Nat) (s : LoopState) (h : s.cur < scoreEnd) :
    musLoop env src channels scoreEnd (f + 1) s
      = musLoop env src channels scoreEnd f (stepEvent env src channels scoreEnd s) := by
  simp [musLoop, h]

theorem c1_run_loop : ∀ env : UBEnv,
    musLoop env c1buf 1 20 20 (initLoopState setup.1 16) = c1s2 := by
  intro env
  have h1 : stepEvent env c1buf 1 20 (initLoopState setup.1 16) = c1s1 := rfl
  have h2 : stepEvent env c1buf 1 20 c1s1 = c1s2 := rfl
  have e1 : musLoop env c1buf 1 20 (19 + 1) (initLoopState setup.1 16)
      = musLoop env c1buf 1 20 19 c1s1 := by
    rw [musLoop_step env c1buf 1 20 19 _ (by decide), h1]
  have e2 : musLoop env c1buf 1 20 (18 + 1) c1s1 = musLoop env c1buf 1 20 18 c1s2 := by
    rw [musLoop_step env c1buf 1 20 18 _ (by decide), h2]
  calc musLoop env c1buf 1 20 20 (initLoopState setup.1 16)
      = musLoop env c1buf 1 20 19 c1s1 := e1
    _ = musLoop env c1buf 1 20 18 c1s2 := e2
    _ = c1s2 := musLoop_exit env c1buf 1 20 18 c1s2 (by decide)

theorem c1_run : ∀ env : UBEnv, mus2midi env c1buf = some c1final := by
  intro env
  unfold mus2midi
  rw [if_neg (by decide)]
  have e1 : headerChannels c1buf = 1 := by decide
  have e2 : scoreEndOf c1buf = 20 := by decide
  have e3 : headerScoreStart c1buf = 16 := by decide
  rw [e1, e2, e3, c1_run_loop env]
  decide

/-- Claim C1 (the round-trip scenario).  For the minimal MUS buffer `c1buf`
(header `channels = 1`, one KeyOn on MUS channel 0 with note 60 and explicit
volume 100, then End with no delta bytes) translation succeeds and produces
exactly `c1dst`; after the tempo event the track data is, in order, the
percussion channel-volume init (delta 0, 0xB9 07 7F), the allocator side
effect for MUS channel 0 mapped to MIDI channel 0 (delta 0, 0xB0 07 7F), the
KeyOn (delta 0, 0x90 0x3C 0x64) and the end-of-track meta event (delta 0,
0xFF 0x2F 0x00); and the reserved length field at offsets 18 to 21 holds the
big-endian byte length of the track data that starts at offset 22. -/
theorem c1_roundtrip : ∀ env : UBEnv,
    (mus2midi env c1buf).map (fun s => s.ctx.dst) = some c1dst
    ∧ c1dst.drop 29
      = [0, 0xB9, 0x07, 127] ++ [0, 0xB0, 0x07, 127] ++ [0, 0x90, 0x3C, 0x64]
          ++ [0, 0xFF, 0x2F, 0x00]
    ∧ (c1dst.drop 18).take 4 = be32 (c1dst.drop 22).length :=
  fun env => ⟨by rw [c1_run env]; decide, by decide, by decide⟩

/-- Claim C2 (code bug).  On `c1buf` the translation completes with the write
cursor at 45, but `mus_getmidisize` reports `dstsize - dstrem`
= `(45 - 8159) mod 2^32` = 4294959182, because the final-size correction sets
`dstsize = dst_ptr - dst` while the line `ctx->dstrem = 0;` is commented out
(and `dstrem` does not equal `dstsize - pos` anyway, since the event write-out
inflates `dstsize` by the copied length).  The reported size therefore differs
from the final cursor position, contradicting the spec invariant. -/
theorem c2_size_mismatch :
    (mus2midi zeroEnv c1buf).map (fun s => (mus_getmidisize s.ctx, s.ctx.pos))
      = some (4294959182, 45)
    ∧ (4294959182 : Nat) ≠ 45 :=
  ⟨by decide, by decide⟩

/-- Counterexample to claim C3 as stated.  In `c3buf` the ChannelMode event
carries table index 12 (the mono marker) and `channels + 1 = 2`, yet the
emitted data2 byte (offset 40 of the output) is 0, because the code compares
the byte after the index byte (`*cur++ == 12`), not the index itself. -/
theorem c3_counterexample :
    (mus2midi zeroEnv c3buf).map (fun s => s.ctx.dst.drop 33)
      = some [0, 0xB0, 0x07, 127, 0, 0xB0, 0x7E, 0, 0, 0xFF, 0x2F, 0]
    ∧ eventAt c3buf 17 = 12
    ∧ headerChannels c3buf + 1 = 2
    ∧ (mus2midi zeroEnv c3buf).map (fun s => s.ctx.dst.getD 40 0) = some 0
    ∧ (0 : Nat) ≠ 2 :=
  ⟨by decide, by decide, by decide, by decide, by decide⟩

/-- Counterexample to claim C4 as stated.  The type-5 event in `c4buf` is on
channel 15 (mapped to 9); the translator still appends four bytes for it: the
delta time 0, the raw channel-map value 9 as a status byte, and the two
uninitialized data bytes (0 under `zeroEnv`).  So an unknown event is not a
no-op at the output level. -/
theorem c4_counterexample :
    typeOf (eventAt c4buf 16) = 5
    ∧ (mus2midi zeroEnv c4buf).map (fun s => (s.ctx.dst.drop 33).take 4)
        = some [0, 9, 0, 0]
    ∧ ([0, 9, 0, 0] : List Nat) ≠ [] :=
  ⟨by decide, by decide, by decide⟩

/-- Counterexample to claim C5 as stated.  The ChannelMode event of `c5buf`
carries index 20; the run records an out-of-bounds `midimap` read (ghost flag
`oobRead`) together with the diagnostic log, so the lookup does read outside
the 15-entry table. -/
theorem c5_counterexample :
    eventAt c5buf 17 = 20
    ∧ midimap.length = 15
    ∧ (mus2midi zeroEnv c5buf).map (fun s => (s.oobRead, s.anomaly)) = some (true, true) :=
  ⟨by decide, by decide, by decide⟩

/-- Claim C6.  `mus2midi` yields the distinguished no-result outcome `none`
exactly when the header declares more than 15 primary channels; for any header
with at most 15 channels translation proceeds and returns a buffer. -/
theorem c6_channel_guard : ∀ (env : UBEnv) (data : List Nat),
    mus2midi env data = none ↔ 15 < headerChannels data := by
  intro env data
  by_cases h : 15 < headerChannels data <;> simp [mus2midi, h]

theorem contGroups_zero : contGroups 0 = [] := by
  simp [contGroups]

theorem contGroups_pos (v : Nat) (h : v ≠ 0) :
    contGroups v = contGroups (v / 128) ++ [128 + v % 128] := by
  rw [contGroups]
  simp [h]

theorem and128_iff (x : Nat) : x &&& 128 ≠ 0 ↔ 128 ≤ x % 256 := by
  have h1 : x &&& 128 = (x.testBit 7).toNat * 128 := by
    have h := Nat.and_two_pow x 7
    norm_num at h
    exact h
  have h2 : x.testBit 7 = decide (x / 128 % 2 = 1) := by
    have h := @Nat.testBit_to_div_mod 7 x
    norm_num at h
    exact h
  rw [h1, h2]
  by_cases h : x / 128 % 2 = 1
  · simp [h]
    omega
  · simp [h]
    omega

theorem and127_eq (x : Nat) : x &&& 127 = x % 128 := by
  have h := Nat.and_pow_two_sub_one_eq_mod x 7
  norm_num at h
  exact h

theorem shiftRight8_eq (x : Nat) : x >>> 8 = x / 256 := by
  have h := Nat.shiftRight_eq_div_pow x 8
  norm_num at h
  exact h

theorem lt_pow128 (v : Nat) : v < 128 ^ (v + 1) :=
  calc v < 2 ^ v := Nat.lt_two_pow v
  _ ≤ 2 ^ (v + 1) := Nat.pow_le_pow_right (by norm_num) (by omega)
  _ ≤ 128 ^ (v + 1) := Nat.pow_le_pow_left (by norm_num) (v + 1)

theorem wvlBuildF_spec : ∀ (f acc v : Nat), v < 128 ^ f →
    wvlBuildF f acc v = (contGroups (v / 128)).reverse.foldl (fun s g => s * 256 + g) acc := by
  intro f
  induction f with
  | zero =>
    intro acc v h
    have hv : v = 0 := by simpa using h
    subst hv
    simp [wvlBuildF, contGroups_zero]
  | succ f ih =>
    intro acc v h
    simp only [wvlBuildF]
    by_cases hv : v / 128 = 0
    · rw [if_pos hv, hv, contGroups_zero]
      simp
    · rw [if_neg hv]
      have hlt : v / 128 < 128 ^ f := by
        rw [Nat.div_lt_iff_lt_mul (by norm_num)]
        calc v < 128 ^ (f + 1) := h
          _ = 128 ^ f * 128 := by rw [Nat.pow_succ]
      rw [ih (acc * 256 + 0x80 + v / 128 % 128) (v / 128) hlt]
      rw [contGroups_pos (v / 128) hv]
      rw [List.reverse_append]
      simp only [List.reverse_cons, List.reverse_nil, List.nil_append, List.singleton_append,
        List.foldl_cons]
      congr 1
      omega

theorem contGroups_mem (v : Nat) : ∀ g ∈ contGroups v, 128 ≤ g ∧ g < 256 := by
  induction v using Nat.strong_induction_on with
  | _ v ih =>
    by_cases h : v = 0
    · subst h
      intro g hg
      rw [contGroups_zero] at hg
      simp at hg
    · intro g hg
      rw [contGroups_pos v h] at hg
      rcases List.mem_append.1 hg with h1 | h1
      · exact ih (v / 128) (Nat.div_lt_self (Nat.pos_of_ne_zero h) (by norm_num)) g h1
      · have hm : v % 128 < 128 := Nat.mod_lt v (by norm_num)
        simp at h1
        omega

theorem contGroups_length (v : Nat) : (contGroups v).length ≤ v := by
  induction v using Nat.strong_induction_on with
  | _ v ih =>
    by_cases h : v = 0
    · subst h
      rw [contGroups_zero]
      simp
    · rw [contGroups_pos v h]
      have hd : v / 128 < v := Nat.div_lt_self (Nat.pos_of_ne_zero h) (by norm_num)
      have hl := ih (v / 128) hd
      simp
      omega

theorem wvlEmitF_spec : ∀ (gs : List Nat) (f acc : Nat),
    (∀ g ∈ gs, 128 ≤ g ∧ g < 256) → acc < 128 → gs.length < f →
    wvlEmitF f (gs.reverse.foldl (fun s g => s * 256 + g) acc) = gs ++ [acc] := by
  intro gs
  induction gs with
  | nil =>
    intro f acc _ hacc hf
    cases f with
    | zero => omega
    | succ f =>
      simp only [List.reverse_nil, List.foldl_nil, wvlEmitF]
      have hc : ¬(acc &&& 0x80 ≠ 0) := (not_congr (and128_iff acc)).mpr (by omega)
      rw [if_neg hc, Nat.mod_eq_of_lt (by omega)]
      simp
  | cons g gs ih =>
    intro f acc hg hacc hf
    cases f with
    | zero => simp at hf
    | succ f =>
      have hg1 : 128 ≤ g ∧ g < 256 := hg g (by simp)
      rw [List.reverse_cons, List.foldl_append]
      simp only [List.foldl_cons, List.foldl_nil]
      set B := gs.reverse.foldl (fun s g => s * 256 + g) acc with hB
      have hmod : (B * 256 + g) % 256 = g := by
        rw [Nat.add_comm, Nat.add_mul_mod_self_right]
        exact Nat.mod_eq_of_lt hg1.2
      have hdiv : (B * 256 + g) >>> 8 = B := by
        rw [shiftRight8_eq, Nat.add_comm, Nat.add_mul_div_right g B (by norm_num)]
        rw [Nat.div_eq_of_lt hg1.2]
        omega
      simp only [wvlEmitF]
      rw [if_pos (by rw [and128_iff, hmod]; exact hg1.1)]
      rw [hmod, hdiv, hB]
      rw [ih f acc (fun g2 hg2 => hg g2 (List.mem_cons_of_mem g hg2)) hacc
        (by simp at hf; omega)]
      simp

theorem WriteVarLen_eq (v : Nat) : WriteVarLen v = contGroups (v / 128) ++ [v % 128] := by
  unfold WriteVarLen
  rw [wvlBuildF_spec (v + 1) (v % 128) v (lt_pow128 v)]
  have hlen : (contGroups (v / 128)).length < v + 2 := by
    have h1 := contGroups_length (v / 128)
    have h2 := Nat.div_le_self v 128
    omega
  have hm : v % 128 < 128 := Nat.mod_lt v (by norm_num)
  exact wvlEmitF_spec (contGroups (v / 128)) (v + 2) (v % 128) (contGroups_mem (v / 128)) hm hlen

theorem contGroups_decode (v : Nat) : ∀ a : Nat,
    (contGroups v).foldl (fun a b => a * 128 + (b &&& 127)) a
      = a * 128 ^ (contGroups v).length + v := by
  induction v using Nat.strong_induction_on with
  | _ v ih =>
    intro a
    by_cases h : v = 0
    · subst h
      rw [contGroups_zero]
      simp
    · rw [contGroups_pos v h, List.foldl_append]
      simp only [List.foldl_cons, List.foldl_nil]
      rw [ih (v / 128) (Nat.div_lt_self (Nat.pos_of_ne_zero h) (by norm_num)) a]
      rw [and127_eq]
      have hm : (128 + v % 128) % 128 = v % 128 := by omega
      rw [hm, List.length_append]
      have key : ∀ X : Nat, (a * X + v / 128) * 128 + v % 128 = a * (X * 128) + v := by
        intro X
        have hdm : v / 128 * 128 + v % 128 = v := by omega
        calc (a * X + v / 128) * 128 + v % 128
            = a * (X * 128) + (v / 128 * 128 + v % 128) := by ring
          _ = a * (X * 128) + v := by rw [hdm]
      calc (a * 128 ^ (contGroups (v / 128)).length + v / 128) * 128 + v % 128
          = a * (128 ^ (contGroups (v / 128)).length * 128) + v := key _
        _ = a * 128 ^ ((contGroups (v / 128)).length + [128 + v % 128].length) + v := by
            rw [show ([128 + v % 128] : List Nat).length = 1 from rfl, Nat.pow_succ]

theorem vlqDecode_WriteVarLen (v : Nat) : vlqDecode (WriteVarLen v) = v := by
  rw [WriteVarLen_eq]
  unfold vlqDecode
  rw [List.foldl_append]
  simp only [List.foldl_cons, List.foldl_nil]
  rw [contGroups_decode (v / 128) 0]
  rw [and127_eq]
  simp only [Nat.zero_mul, Nat.zero_add]
  omega

theorem wvlCountF_eq_length : ∀ f buffer : Nat, wvlCountF f buffer = (wvlEmitF f buffer).length := by
  intro f
  induction f with
  | zero => intro b; rfl
  | succ f ih =>
    intro b
    simp only [wvlCountF, wvlEmitF]
    split
    · rw [ih]
      simp [Nat.add_comm]
    · rfl

theorem WriteVarLenCount_eq (v : Nat) : WriteVarLenCount v = (WriteVarLen v).length :=
  wvlCountF_eq_length (v + 2) _

/-- Claim C8.  For every value below 2^28, `WriteVarLen` emits the standard
MIDI variable-length quantity: the 7-bit groups of the value, most significant
group first (`contGroups (v / 128)` are the upper groups, each with the
continuation bit set, `v % 128` is the final byte without it); zero encodes as
the single byte 0x00; decoding with the standard accumulate-by-128 decoder
recovers the value; and the count the function returns equals the number of
bytes emitted. -/
theorem c8_varlen : ∀ v : Nat, v < 2 ^ 28 →
    WriteVarLen v = contGroups (v / 128) ++ [v % 128]
    ∧ (∀ g ∈ (WriteVarLen v).dropLast, 128 ≤ g)
    ∧ (WriteVarLen v).getLast? = some (v % 128)
    ∧ v % 128 < 128
    ∧ vlqDecode (WriteVarLen v) = v
    ∧ WriteVarLen 0 = [0]
    ∧ WriteVarLenCount v = (WriteVarLen v).length := by
  intro v _
  refine ⟨WriteVarLen_eq v, ?_, ?_, Nat.mod_lt v (by norm_num), vlqDecode_WriteVarLen v,
    by decide, WriteVarLenCount_eq v⟩
  · rw [WriteVarLen_eq, List.dropLast_concat]
    intro g hg
    exact (contGroups_mem (v / 128) g hg).1
  · rw [WriteVarLen_eq, List.getLast?_concat]

theorem readMusDelta_cur (src : List Nat) :
    ∀ (f p acc : Nat), 1 ≤ f → p + 1 ≤ (readMusDelta src f p acc).2 := by
  intro f
  induction f with
  | zero => intro p acc h; omega
  | succ f ih =>
    intro p acc _
    simp only [readMusDelta]
    split
    · rcases Nat.eq_zero_or_pos f with hf | hf
      · subst hf
        simp [readMusDelta]
      · have h2 := ih (p + 1) (acc * 128 + (eventAt src p &&& 127)) hf
        omega
    · simp

theorem typeOf_lt (event : Nat) : typeOf event < 8 := by
  unfold typeOf
  have h1 : event &&& 122 ≤ 122 := Nat.and_le_right
  have h2 : (event &&& 122) >>> 4 = (event &&& 122) / 16 := by
    rw [Nat.shiftRight_eq_div_pow]
  omega

theorem translateEvent_cur_ge (env : UBEnv) (src : List Nat) (channels scoreEnd : Nat)
    (event cur0 status0 volIdx : Nat) (vol : List Nat) :
    cur0 ≤ (translateEvent env src channels scoreEnd event cur0 status0 volIdx vol).cur := by
  unfold translateEvent
  have hb := typeOf_lt event
  set t := typeOf event with ht
  interval_cases t
  all_goals try simp
  all_goals try split
  all_goals try dsimp only
  all_goals omega

theorem stepEvent_cur (env : UBEnv) (src : List Nat) (channels scoreEnd : Nat) (s : LoopState) :
    s.cur < (stepEvent env src channels scoreEnd s).cur := by
  have key : ∀ X : Nat, s.cur + 1 ≤ X →
      s.cur < (if eventAt src s.cur &&& 128 ≠ 0
               then (readMusDelta src (src.length + 1) X 0).2 else X) := by
    intro X hX
    split
    · have h2 := readMusDelta_cur src (src.length + 1) X 0 (by omega)
      omega
    · omega
  unfold stepEvent
  exact key _ (translateEvent_cur_ge _ _ _ _ _ _ _ _ _)

theorem musLoop_terminates (env : UBEnv) (src : List Nat) (channels scoreEnd : Nat) :
    ∀ (f : Nat) (s : LoopState), scoreEnd - s.cur ≤ f →
      ¬ (musLoop env src channels scoreEnd f s).cur < scoreEnd := by
  intro f
  induction f with
  | zero =>
    intro s h
    simp only [musLoop]
    omega
  | succ f ih =>
    intro s h
    by_cases hc : s.cur < scoreEnd
    · rw [musLoop_step env src channels scoreEnd f s hc]
      apply ih
      have hs := stepEvent_cur env src channels scoreEnd s
      omega
    · rw [musLoop_exit env src channels scoreEnd (f + 1) s hc]
      exact hc

theorem stepEvent_posinv (env : UBEnv) (src : List Nat) (channels scoreEnd : Nat)
    (s : LoopState) (h : s.ctx.pos = s.ctx.dst.length) :
    (stepEvent env src channels scoreEnd s).ctx.pos
      = (stepEvent env src channels scoreEnd s).ctx.dst.length
    ∧ s.ctx.pos ≤ (stepEvent env src channels scoreEnd s).ctx.pos := by
  unfold stepEvent
  exact writeChunk_posinv s.ctx _ h

theorem musLoop_posinv (env : UBEnv) (src : List Nat) (channels scoreEnd : Nat) :
    ∀ (f : Nat) (s : LoopState), s.ctx.pos = s.ctx.dst.length →
      (musLoop env src channels scoreEnd f s).ctx.pos
        = (musLoop env src channels scoreEnd f s).ctx.dst.length
      ∧ s.ctx.pos ≤ (musLoop env src channels scoreEnd f s).ctx.pos := by
  intro f
  induction f with
  | zero => intro s h; exact ⟨h, Nat.le_refl _⟩
  | succ f ih =>
    intro s h
    by_cases hc : s.cur < scoreEnd
    · rw [musLoop_step env src channels scoreEnd f s hc]
      obtain ⟨h1, h2⟩ := stepEvent_posinv env src channels scoreEnd s h
      obtain ⟨h3, h4⟩ := ih _ h1
      exact ⟨h3, Nat.le_trans h2 h4⟩
    · rw [musLoop_exit env src channels scoreEnd (f + 1) s hc]
      exact ⟨h, Nat.le_refl _⟩

theorem write4_dst_inbounds (c : MusCtx) (v : Nat) (h : c.pos + 4 ≤ c.dst.length) :
    (write4 c v).dst = c.dst.take c.pos ++ be32 v ++ c.dst.drop (c.pos + 4)
    ∧ (write4 c v).pos = c.pos + 4 := by
  constructor
  · show writeList (if c.dstrem < 4 then resize_dst c else c).dst
        (if c.dstrem < 4 then resize_dst c else c).pos (be32 v)
        = c.dst.take c.pos ++ be32 v ++ c.dst.drop (c.pos + 4)
    have hlen : (be32 v).length = 4 := rfl
    split
    · simp only [resize_dst_dst, resize_dst_pos]
      rw [writeList_inbounds (be32 v) c.dst c.pos (by rw [hlen]; exact h), hlen]
    · rw [writeList_inbounds (be32 v) c.dst c.pos (by rw [hlen]; exact h), hlen]
  · show (if c.dstrem < 4 then resize_dst c else c).pos + 4 = c.pos + 4
    split <;> rfl

theorem seekdst_dst (c : MusCtx) (p : Nat) : (seekdst c p).dst = c.dst := rfl

theorem seekdst_pos (c : MusCtx) (p : Nat) : (seekdst c p).pos = p := rfl

theorem patchFinish_proj (c : MusCtx) :
    (patchFinish c).dst = (write4 (seekdst c 18) (c.pos - 14 - 8)).dst
    ∧ (patchFinish c).pos = c.pos := by
  have e22 : setup.2.2 = 18 := by decide
  have e21 : setup.2.1 = 14 := by decide
  unfold patchFinish
  rw [e22, e21]
  constructor
  · simp only [seekdst_dst]
  · simp only [seekdst_pos]

theorem patchFinish_spec (c : MusCtx) (h : c.pos = c.dst.length) (h22 : 22 ≤ c.pos) :
    (patchFinish c).dst = c.dst.take 18 ++ be32 (c.pos - 22) ++ c.dst.drop 22
    ∧ (patchFinish c).pos = c.pos
    ∧ (patchFinish c).dst.length = c.pos := by
  obtain ⟨hdst, hpos⟩ := patchFinish_proj c
  obtain ⟨hw, _⟩ := write4_dst_inbounds (seekdst c 18) (c.pos - 14 - 8)
    (by rw [seekdst_dst, seekdst_pos, ← h]; omega)
  rw [seekdst_dst, seekdst_pos] at hw
  have harg : c.pos - 14 - 8 = c.pos - 22 := by omega
  rw [show (18 : Nat) + 4 = 22 from rfl] at hw
  have hlen2 : (c.dst.take 18 ++ be32 (c.pos - 14 - 8) ++ c.dst.drop 22).length = c.pos := by
    simp [be32]
    omega
  refine ⟨?_, hpos, ?_⟩
  · rw [hdst, hw, harg]
  · rw [hdst, hw]
    rw [harg] at hlen2
    exact hlen2

theorem getD_set_ne (l : List Int) (i j : Nat) (v d : Int) (h : i ≠ j) :
    (l.set i v).getD j d = l.getD j d := by
  induction l generalizing i j with
  | nil => simp
  | cons a l ih =>
    cases i with
    | zero =>
      cases j with
      | zero => omega
      | succ j => simp
    | succ i =>
      cases j with
      | zero => simp
      | succ j => simpa using ih i j (by omega)

theorem getD_set_self (l : List Int) (i : Nat) (v d : Int) (h : i < l.length) :
    (l.set i v).getD i d = v := by
  induction l generalizing i with
  | nil => simp at h
  | cons a l ih =>
    cases i with
    | zero => simp
    | succ i => simpa using ih i (by simpa using h)

theorem allocSeq_ne_nine (n : Nat) : allocSeq n ≠ 9 := by
  unfold allocSeq
  split <;> omega

theorem allocSeq_step (n : Nat) :
    (if allocSeq n + 1 = 9 then 10 else allocSeq n + 1) = allocSeq (n + 1) := by
  unfold allocSeq
  split_ifs <;> omega

theorem initLoopState_channelInv (c : MusCtx) (cur : Nat) : ChannelInv (initLoopState c cur) := by
  have hmap : (initLoopState c cur).channelMap = (List.replicate 16 (-1 : Int)).set 15 9 := rfl
  refine ⟨by rw [hmap]; decide, by rw [hmap]; decide, ?_, rfl, rfl⟩
  intro ch hch
  rw [hmap]
  interval_cases ch <;> decide

theorem stepEvent_channelInv (env : UBEnv) (src : List Nat) (channels scoreEnd : Nat)
    (s : LoopState) (h : ChannelInv s) :
    ChannelInv (stepEvent env src channels scoreEnd s) := by
  obtain ⟨hlen, h15, h9, horder, hcc⟩ := h
  have projMap : (stepEvent env src channels scoreEnd s).channelMap
      = if s.channelMap.getD (eventAt src s.cur % 16) (-1) < 0 then
          s.channelMap.set (eventAt src s.cur % 16) (Int.ofNat s.currentChannel)
        else s.channelMap := rfl
  have projCC : (stepEvent env src channels scoreEnd s).currentChannel
      = if s.channelMap.getD (eventAt src s.cur % 16) (-1) < 0 then
          (if s.currentChannel + 1 = 9 then 10 else s.currentChannel + 1)
        else s.currentChannel := rfl
  have projOrder : (stepEvent env src channels scoreEnd s).allocOrder
      = if s.channelMap.getD (eventAt src s.cur % 16) (-1) < 0 then
          s.allocOrder ++ [s.currentChannel]
        else s.allocOrder := rfl
  unfold ChannelInv
  rw [projMap, projCC, projOrder]
  by_cases halloc : s.channelMap.getD (eventAt src s.cur % 16) (-1) < 0
  · rw [if_pos halloc, if_pos halloc, if_pos halloc]
    have hch16 : eventAt src s.cur % 16 < 16 := Nat.mod_lt _ (by norm_num)
    have hne15 : eventAt src s.cur % 16 ≠ 15 := by
      intro he
      rw [he, h15] at halloc
      omega
    refine ⟨by simp [hlen], ?_, ?_, ?_, ?_⟩
    · rw [getD_set_ne _ _ _ _ _ hne15]
      exact h15
    · intro ch2 hch2
      by_cases he : eventAt src s.cur % 16 = ch2
      · subst he
        rw [getD_set_self _ _ _ _ (by omega)]
        have hne9 := allocSeq_ne_nine s.allocOrder.length
        rw [hcc]
        intro hcon
        rw [show (9 : Int) = Int.ofNat 9 from rfl] at hcon
        exact hne9 (Int.ofNat.inj hcon)
      · rw [getD_set_ne _ _ _ _ _ he]
        exact h9 ch2 hch2
    · rw [List.length_append, List.length_singleton, List.range_succ, List.map_append]
      rw [← horder]
      simp [hcc]
    · rw [List.length_append, List.length_singleton, hcc, allocSeq_step]
  · rw [if_neg halloc, if_neg halloc, if_neg halloc]
    exact ⟨hlen, h15, h9, horder, hcc⟩

theorem musLoop_channelInv (env : UBEnv) (src : List Nat) (channels scoreEnd : Nat) :
    ∀ (f : Nat) (s : LoopState), ChannelInv s →
      ChannelInv (musLoop env src channels scoreEnd f s) := by
  intro f
  induction f with
  | zero => intro s h; exact h
  | succ f ih =>
    intro s h
    by_cases hc : s.cur < scoreEnd
    · rw [musLoop_step env src channels scoreEnd f s hc]
      exact ih _ (stepEvent_channelInv env src channels scoreEnd s h)
    · rw [musLoop_exit env src channels scoreEnd (f + 1) s hc]
      exact h

/-- Claim C9.  MUS channel 15 is pre-assigned to MIDI channel 9 before any
event is processed; the allocator invariant `ChannelInv` (channel 15 maps to 9,
no melodic channel is ever assigned 9, and the first-use assignments are
exactly the monotonically increasing sequence 0, 1, ..., 8, 10, 11, ... that
skips 9) holds initially and is preserved by every loop iteration and by the
whole loop, for every input. -/
theorem c9_channel_alloc :
    (∀ (c : MusCtx) (cur : Nat), ChannelInv (initLoopState c cur))
    ∧ (∀ (env : UBEnv) (src : List Nat) (channels scoreEnd : Nat) (s : LoopState),
        ChannelInv s → ChannelInv (stepEvent env src channels scoreEnd s))
    ∧ (∀ (env : UBEnv) (src : List Nat) (channels scoreEnd f : Nat) (s : LoopState),
        ChannelInv s → ChannelInv (musLoop env src channels scoreEnd f s)) :=
  ⟨initLoopState_channelInv,
   fun env src channels scoreEnd s h => stepEvent_channelInv env src channels scoreEnd s h,
   fun env src channels scoreEnd f s h => musLoop_channelInv env src channels scoreEnd f s h⟩

/-- Witness for C9: the invariant holds for the concrete initial state of the
`c1buf` run, after one step, and after the whole loop. -/
theorem c9_channel_alloc_witness :
    ChannelInv (initLoopState setup.1 16)
    ∧ ChannelInv (stepEvent zeroEnv c1buf 1 20 (initLoopState setup.1 16))
    ∧ ChannelInv (musLoop zeroEnv c1buf 1 20 20 (initLoopState setup.1 16)) :=
  ⟨c9_channel_alloc.1 setup.1 16,
   c9_channel_alloc.2.1 zeroEnv c1buf 1 20 _ (c9_channel_alloc.1 setup.1 16),
   c9_channel_alloc.2.2 zeroEnv c1buf 1 20 20 _ (c9_channel_alloc.1 setup.1 16)⟩

/-- Claim C10.  Every iteration of the main loop strictly advances the source
cursor (the event byte is consumed unconditionally and every payload or delta
read only advances further); the loop body is not entered when the cursor has
reached the precomputed score end; and with fuel at least `scoreEnd - cur`
(always available, since `mus2midi` passes `scoreEnd`) the loop finishes in a
state whose cursor is no longer below the end offset — so the loop terminates
on every input, well-formed or not. -/
theorem c10_termination : ∀ (env : UBEnv) (src : List Nat) (channels scoreEnd : Nat)
    (s : LoopState),
    s.cur < (stepEvent env src channels scoreEnd s).cur
    ∧ (∀ f : Nat, ¬ s.cur < scoreEnd → musLoop env src channels scoreEnd f s = s)
    ∧ (∀ f : Nat, scoreEnd - s.cur ≤ f →
        ¬ (musLoop env src channels scoreEnd f s).cur < scoreEnd) := by
  intro env src channels scoreEnd s
  exact ⟨stepEvent_cur env src channels scoreEnd s,
    fun f h => musLoop_exit env src channels scoreEnd f s h,
    fun f h => musLoop_terminates env src channels scoreEnd f s h⟩

/-- Witness for C10 on the `c1buf` run: the first step advances the cursor past
16, a loop started at a cursor past the end returns its state unchanged, and
fuel 20 suffices to finish from cursor 16 with score end 20. -/
theorem c10_termination_witness :
    16 < (stepEvent zeroEnv c1buf 1 20 (initLoopState setup.1 16)).cur
    ∧ musLoop zeroEnv c1buf 1 20 5 (initLoopState setup.1 99) = initLoopState setup.1 99
    ∧ ¬ (musLoop zeroEnv c1buf 1 20 20 (initLoopState setup.1 16)).cur < 20 :=
  ⟨(c10_termination zeroEnv c1buf 1 20 (initLoopState setup.1 16)).1,
   (c10_termination zeroEnv c1buf 1 20 (initLoopState setup.1 99)).2.1 5 (by decide),
   (c10_termination zeroEnv c1buf 1 20 (initLoopState setup.1 16)).2.2 20 (by decide)⟩

/-- Claim C7.  Whenever translation completes, the 4 bytes at offsets 18 to 21
of the final buffer (the reserved track-length field inside the track chunk
that starts at offset 14) hold the big-endian value `finalLength - 22`, where
`finalLength` is the total emitted byte length and 22 is the offset right
after the track header, i.e. 8 bytes past the start of the MTrk tag; moreover
the final write cursor equals that total length. -/
theorem c7_track_length : ∀ (env : UBEnv) (data : List Nat) (s : LoopState),
    mus2midi env data = some s →
    (s.ctx.dst.drop 18).take 4 = be32 (s.ctx.dst.length - 22)
    ∧ s.ctx.pos = s.ctx.dst.length := by
  intro env data s h
  unfold mus2midi at h
  by_cases h15 : 15 < headerChannels data
  · rw [if_pos h15] at h
    exact absurd h (by simp)
  · rw [if_neg h15] at h
    have hinj := Option.some.inj h
    subst hinj
    have hctx : (initLoopState setup.1 (headerScoreStart data)).ctx = setup.1 := rfl
    have hsetup : setup.1.pos = setup.1.dst.length ∧ setup.1.pos = 33 := by decide
    obtain ⟨hpos, hge⟩ := musLoop_posinv env data (headerChannels data) (scoreEndOf data)
      (scoreEndOf data) (initLoopState setup.1 (headerScoreStart data))
      (by rw [hctx]; exact hsetup.1)
    rw [hctx, hsetup.2] at hge
    set M := musLoop env data (headerChannels data) (scoreEndOf data) (scoreEndOf data)
      (initLoopState setup.1 (headerScoreStart data)) with hM
    have h33 : (33 : Nat) ≤ M.ctx.pos := hge
    obtain ⟨hd, hp, hl⟩ := patchFinish_spec M.ctx hpos (by omega)
    have hsctx : (finishState M).ctx = patchFinish M.ctx := rfl
    constructor
    · rw [hsctx, hd]
      rw [show (M.ctx.dst.take 18 ++ be32 (M.ctx.pos - 22) ++ M.ctx.dst.drop 22).length
            = M.ctx.pos from by rw [← hd]; exact hl]
      have hassoc : M.ctx.dst.take 18 ++ be32 (M.ctx.pos - 22) ++ M.ctx.dst.drop 22
          = M.ctx.dst.take 18 ++ (be32 (M.ctx.pos - 22) ++ M.ctx.dst.drop 22) := by
        simp
      rw [hassoc]
      set A := M.ctx.dst.take 18 with hA
      have hAlen : A.length = 18 := by
        rw [hA]
        simp
        omega
      rw [← hAlen, List.drop_left]
      set B := be32 (M.ctx.pos - 22) with hB
      have hBlen : B.length = 4 := rfl
      rw [← hBlen, List.take_left]
    · rw [hsctx, hp, hl]

/-- Witness for C7 on the concrete run of `c7buf`. -/
theorem c7_track_length_witness :
    mus2midi zeroEnv c7buf = some c7state
    ∧ ((c7state.ctx.dst.drop 18).take 4 = be32 (c7state.ctx.dst.length - 22)
       ∧ c7state.ctx.pos = c7state.ctx.dst.length) :=
  ⟨by decide, c7_track_length zeroEnv c7buf c7state (by decide)⟩

/-- Witness for C8 at the concrete value 300. -/
theorem c8_varlen_witness :
    (300 : Nat) < 2 ^ 28
    ∧ (WriteVarLen 300 = contGroups (300 / 128) ++ [300 % 128]
       ∧ (∀ g ∈ (WriteVarLen 300).dropLast, 128 ≤ g)
       ∧ (WriteVarLen 300).getLast? = some (300 % 128)
       ∧ 300 % 128 < 128
       ∧ vlqDecode (WriteVarLen 300) = 300
       ∧ WriteVarLen 0 = [0]
       ∧ WriteVarLenCount 300 = (WriteVarLen 300).length) :=
  ⟨by norm_num, c8_varlen 300 (by norm_num)⟩

theorem translateEvent_t3 (env : UBEnv) (src : List Nat)
    (channels scoreEnd event cur0 status0 volIdx : Nat) (vol : List Nat)
    (h3 : typeOf event = 3) :
    translateEvent env src channels scoreEnd event cur0 status0 volIdx vol
      = ⟨status0 ||| 0xB0,
         midimap.getD (eventAt src cur0) (env.oobByte (eventAt src cur0) % 256),
         if eventAt src (cur0 + 1) = 12 then (channels + 1) % 256 else 0,
         2, cur0 + 2, vol,
         ! decide (eventAt src cur0 < 15), ! decide (eventAt src cur0 < 15)⟩ := by
  unfold translateEvent
  rw [h3]
  simp

theorem translateEvent_t4cc (env : UBEnv) (src : List Nat)
    (channels scoreEnd event cur0 status0 volIdx : Nat) (vol : List Nat)
    (h4 : typeOf event = 4) (hnz : eventAt src cur0 ≠ 0) :
    translateEvent env src channels scoreEnd event cur0 status0 volIdx vol
      = ⟨status0 ||| 0xB0,
         midimap.getD (eventAt src cur0) (env.oobByte (eventAt src cur0) % 256),
         eventAt src (cur0 + 1), 2, cur0 + 2, vol,
         ! decide (eventAt src cur0 < 15), ! decide (eventAt src cur0 < 15)⟩ := by
  unfold translateEvent
  rw [h4]
  simp [hnz]

theorem translateEvent_t57 (env : UBEnv) (src : List Nat)
    (channels scoreEnd event cur0 status0 volIdx : Nat) (vol : List Nat)
    (h : typeOf event = 5 ∨ typeOf event = 7) :
    translateEvent env src channels scoreEnd event cur0 status0 volIdx vol
      = ⟨status0, env.junk1 cur0 % 256, env.junk2 cur0 % 256, 2, cur0, vol, false, false⟩ := by
  unfold translateEvent
  rcases h with h | h <;> rw [h] <;> simp

theorem stepEvent_ctx_eq (env : UBEnv) (src : List Nat) (channels scoreEnd : Nat)
    (s : LoopState) :
    (stepEvent env src channels scoreEnd s).ctx
      = writeChunk s.ctx (eventOut env src channels scoreEnd s) := rfl

theorem stepEvent_cur_eq (env : UBEnv) (src : List Nat) (channels scoreEnd : Nat)
    (s : LoopState) :
    (stepEvent env src channels scoreEnd s).cur
      = (if eventAt src s.cur &&& 128 ≠ 0
         then (readMusDelta src (src.length + 1) (stepEv env src channels scoreEnd s).cur 0).2
         else (stepEv env src channels scoreEnd s).cur) := rfl

theorem stepEvent_oob_eq (env : UBEnv) (src : List Nat) (channels scoreEnd : Nat)
    (s : LoopState) :
    (stepEvent env src channels scoreEnd s).oobRead
      = (s.oobRead || (stepEv env src channels scoreEnd s).oob) := rfl

theorem stepEvent_anomaly_eq (env : UBEnv) (src : List Nat) (channels scoreEnd : Nat)
    (s : LoopState) :
    (stepEvent env src channels scoreEnd s).anomaly
      = (s.anomaly || (stepEv env src channels scoreEnd s).anomaly) := rfl

theorem allocMap_no (src : List Nat) (s : LoopState)
    (h : ¬ s.channelMap.getD (eventAt src s.cur % 16) (-1) < 0) :
    allocMap src s = s.channelMap := by
  unfold allocMap
  rw [if_neg h]

theorem midimap_getD_irrel (i d : Nat) (h : i < 15) : midimap.getD i d = midimap.getD i 0 := by
  interval_cases i <;> rfl

/-- Corrected claim C3.  For a ChannelMode event (type 3) on an
already-assigned channel, with an in-range controller index, the iteration
appends the delta time followed by status `0xB0 | ch`, data1 looked up in the
`midimap` table at the first payload byte — but data2 is `channels + 1`
exactly when the byte after the index byte (the second payload byte the code
consumes with `*cur++ == 12`) equals 12, not when the table index itself does. -/
theorem c3_channelmode_amended : ∀ (env : UBEnv) (src : List Nat) (channels scoreEnd : Nat)
    (s : LoopState),
    typeOf (eventAt src s.cur) = 3 →
    eventAt src (s.cur + 1) < 15 →
    ¬ s.channelMap.getD (eventAt src s.cur % 16) (-1) < 0 →
    s.ctx.pos = s.ctx.dst.length →
    (stepEvent env src channels scoreEnd s).ctx.dst
      = s.ctx.dst ++ (WriteVarLen s.delta_time
          ++ [(s.channelMap.getD (eventAt src s.cur % 16) 0).toNat % 256 ||| 0xB0,
              midimap.getD (eventAt src (s.cur + 1)) 0,
              if eventAt src (s.cur + 2) = 12 then (channels + 1) % 256 else 0]) := by
  intro env src channels scoreEnd s h3 hidx halloc hpos
  have hev : stepEv env src channels scoreEnd s
      = ⟨(s.channelMap.getD (eventAt src s.cur % 16) 0).toNat % 256 ||| 0xB0,
         midimap.getD (eventAt src (s.cur + 1)) (env.oobByte (eventAt src (s.cur + 1)) % 256),
         if eventAt src (s.cur + 1 + 1) = 12 then (channels + 1) % 256 else 0,
         2, s.cur + 1 + 2, s.channel_volume,
         ! decide (eventAt src (s.cur + 1) < 15), ! decide (eventAt src (s.cur + 1) < 15)⟩ := by
    unfold stepEv
    rw [allocMap_no src s halloc]
    rw [translateEvent_t3 env src channels scoreEnd _ _ _ _ _ h3]
  have hout : eventOut env src channels scoreEnd s
      = WriteVarLen s.delta_time
        ++ [(s.channelMap.getD (eventAt src s.cur % 16) 0).toNat % 256 ||| 0xB0,
            midimap.getD (eventAt src (s.cur + 1)) (env.oobByte (eventAt src (s.cur + 1)) % 256),
            if eventAt src (s.cur + 2) = 12 then (channels + 1) % 256 else 0] := by
    unfold eventOut
    rw [hev, if_neg halloc]
    simp
  rw [stepEvent_ctx_eq]
  obtain ⟨ha, _⟩ := writeChunk_append s.ctx (eventOut env src channels scoreEnd s) hpos
    (by rw [hout]; simp)
  rw [ha, hout, midimap_getD_irrel (eventAt src (s.cur + 1)) _ hidx]

/-- Witness for the corrected C3 on a concrete ChannelMode event with index 3
and second payload byte 12, on a state with MUS channel 0 already assigned. -/
theorem c3_channelmode_amended_witness :
    typeOf (eventAt [48, 3, 12] 0) = 3
    ∧ eventAt [48, 3, 12] (0 + 1) < 15
    ∧ ¬ wChState.channelMap.getD (eventAt [48, 3, 12] 0 % 16) (-1) < 0
    ∧ wChState.ctx.pos = wChState.ctx.dst.length
    ∧ (stepEvent zeroEnv [48, 3, 12] 5 3 wChState).ctx.dst
      = wChState.ctx.dst ++ (WriteVarLen wChState.delta_time
          ++ [(wChState.channelMap.getD (eventAt [48, 3, 12] 0 % 16) 0).toNat % 256 ||| 0xB0,
              midimap.getD (eventAt [48, 3, 12] (0 + 1)) 0,
              if eventAt [48, 3, 12] (0 + 2) = 12 then (5 + 1) % 256 else 0]) :=
  ⟨by decide, by decide, by decide, by decide,
   c3_channelmode_amended zeroEnv [48, 3, 12] 5 3 wChState (by decide) (by decide)
     (by decide) (by decide)⟩

/-- Corrected claim C4.  An event whose extracted type is unknown (5 or 7; the
extracted type is always below 8) consumes no payload bytes and the `switch`
leaves the locals alone, but the iteration is not a no-op on the output: it
still appends the delta time, the raw channel-map value as a pseudo status
byte, and two data bytes taken from the uninitialized locals `bit1`/`bit2`. -/
theorem c4_unknown_amended : ∀ (env : UBEnv) (src : List Nat) (channels scoreEnd : Nat)
    (s : LoopState),
    (typeOf (eventAt src s.cur) = 5 ∨ typeOf (eventAt src s.cur) = 7) →
    ¬ s.channelMap.getD (eventAt src s.cur % 16) (-1) < 0 →
    s.ctx.pos = s.ctx.dst.length →
    (stepEvent env src channels scoreEnd s).ctx.dst
      = s.ctx.dst ++ (WriteVarLen s.delta_time
          ++ [(s.channelMap.getD (eventAt src s.cur % 16) 0).toNat % 256,
              env.junk1 (s.cur + 1) % 256, env.junk2 (s.cur + 1) % 256])
    ∧ (stepEvent env src channels scoreEnd s).cur
      = (if eventAt src s.cur &&& 128 ≠ 0
         then (readMusDelta src (src.length + 1) (s.cur + 1) 0).2 else s.cur + 1) := by
  intro env src channels scoreEnd s h57 halloc hpos
  have hev : stepEv env src channels scoreEnd s
      = ⟨(s.channelMap.getD (eventAt src s.cur % 16) 0).toNat % 256,
         env.junk1 (s.cur + 1) % 256, env.junk2 (s.cur + 1) % 256, 2, s.cur + 1,
         s.channel_volume, false, false⟩ := by
    unfold stepEv
    rw [allocMap_no src s halloc]
    exact translateEvent_t57 env src channels scoreEnd _ _ _ _ _ h57
  constructor
  · have hout : eventOut env src channels scoreEnd s
        = WriteVarLen s.delta_time
          ++ [(s.channelMap.getD (eventAt src s.cur % 16) 0).toNat % 256,
              env.junk1 (s.cur + 1) % 256, env.junk2 (s.cur + 1) % 256] := by
      unfold eventOut
      rw [hev, if_neg halloc]
      simp
    rw [stepEvent_ctx_eq]
    obtain ⟨ha, _⟩ := writeChunk_append s.ctx (eventOut env src channels scoreEnd s) hpos
      (by rw [hout]; simp)
    rw [ha, hout]
  · rw [stepEvent_cur_eq, hev]

/-- Witness for the corrected C4 on a concrete type-5 event on channel 15. -/
theorem c4_unknown_amended_witness :
    (typeOf (eventAt [95] 0) = 5 ∨ typeOf (eventAt [95] 0) = 7)
    ∧ ¬ (initLoopState ⟨[], 0, 8192, 8192⟩ 0).channelMap.getD (eventAt [95] 0 % 16) (-1) < 0
    ∧ (initLoopState ⟨[], 0, 8192, 8192⟩ 0).ctx.pos
        = (initLoopState ⟨[], 0, 8192, 8192⟩ 0).ctx.dst.length
    ∧ ((stepEvent zeroEnv [95] 1 1 (initLoopState ⟨[], 0, 8192, 8192⟩ 0)).ctx.dst
        = (initLoopState ⟨[], 0, 8192, 8192⟩ 0).ctx.dst
            ++ (WriteVarLen (initLoopState ⟨[], 0, 8192, 8192⟩ 0).delta_time
              ++ [((initLoopState ⟨[], 0, 8192, 8192⟩ 0).channelMap.getD
                    (eventAt [95] 0 % 16) 0).toNat % 256,
                  zeroEnv.junk1 (0 + 1) % 256, zeroEnv.junk2 (0 + 1) % 256])
       ∧ (stepEvent zeroEnv [95] 1 1 (initLoopState ⟨[], 0, 8192, 8192⟩ 0)).cur
        = (if eventAt [95] 0 &&& 128 ≠ 0
           then (readMusDelta [95] ([95].length + 1) (0 + 1) 0).2 else 0 + 1)) :=
  ⟨by decide, by decide, by decide,
   c4_unknown_amended zeroEnv [95] 1 1 (initLoopState ⟨[], 0, 8192, 8192⟩ 0)
     (by decide) (by decide) (by decide)⟩

/-- Corrected claim C5.  For a ChannelMode event or a non-program
ControllerChange event, an index byte of 15 or more is only logged (the ghost
`anomaly` flag, standing for the `printf`) and translation proceeds — but the
`midimap` access is then genuinely out of bounds (the ghost `oobRead` flag):
the lookup is in range exactly when the index byte is below the table length
15.  The cursor still advances, so translation continues. -/
theorem c5_oob_amended : ∀ (env : UBEnv) (src : List Nat) (channels scoreEnd : Nat)
    (s : LoopState),
    (typeOf (eventAt src s.cur) = 3
     ∨ (typeOf (eventAt src s.cur) = 4 ∧ eventAt src (s.cur + 1) ≠ 0)) →
    (stepEvent env src channels scoreEnd s).oobRead
      = (s.oobRead || ! decide (eventAt src (s.cur + 1) < 15))
    ∧ (stepEvent env src channels scoreEnd s).anomaly
      = (s.anomaly || ! decide (eventAt src (s.cur + 1) < 15))
    ∧ (eventAt src (s.cur + 1) < 15 → eventAt src (s.cur + 1) < midimap.length)
    ∧ s.cur < (stepEvent env src channels scoreEnd s).cur := by
  intro env src channels scoreEnd s h
  have hoob : (stepEv env src channels scoreEnd s).oob
        = ! decide (eventAt src (s.cur + 1) < 15)
      ∧ (stepEv env src channels scoreEnd s).anomaly
        = ! decide (eventAt src (s.cur + 1) < 15) := by
    rcases h with h3 | ⟨h4, hnz⟩
    · unfold stepEv
      rw [translateEvent_t3 env src channels scoreEnd _ _ _ _ _ h3]
      exact ⟨rfl, rfl⟩
    · unfold stepEv
      rw [translateEvent_t4cc env src channels scoreEnd _ _ _ _ _ h4 hnz]
      exact ⟨rfl, rfl⟩
  refine ⟨?_, ?_, ?_, stepEvent_cur env src channels scoreEnd s⟩
  · rw [stepEvent_oob_eq, hoob.1]
  · rw [stepEvent_anomaly_eq, hoob.2]
  · intro h15
    rw [show midimap.length = 15 from rfl]
    exact h15

/-- Witness for the corrected C5 on a concrete ChannelMode event with the
out-of-table index 20. -/
theorem c5_oob_amended_witness :
    (typeOf (eventAt [63, 20, 0] 0) = 3
     ∨ (typeOf (eventAt [63, 20, 0] 0) = 4 ∧ eventAt [63, 20, 0] (0 + 1) ≠ 0))
    ∧ ((stepEvent zeroEnv [63, 20, 0] 1 3 (initLoopState ⟨[], 0, 8192, 8192⟩ 0)).oobRead
        = ((initLoopState ⟨[], 0, 8192, 8192⟩ 0).oobRead
            || ! decide (eventAt [63, 20, 0] (0 + 1) < 15))
       ∧ (stepEvent zeroEnv [63, 20, 0] 1 3 (initLoopState ⟨[], 0, 8192, 8192⟩ 0)).anomaly
        = ((initLoopState ⟨[], 0, 8192, 8192⟩ 0).anomaly
            || ! decide (eventAt [63, 20, 0] (0 + 1) < 15))
       ∧ (eventAt [63, 20, 0] (0 + 1) < 15 → eventAt [63, 20, 0] (0 + 1) < midimap.length)
       ∧ 0 < (stepEvent zeroEnv [63, 20, 0] 1 3 (initLoopState ⟨[], 0, 8192, 8192⟩ 0)).cur) :=
  ⟨Or.inl (by decide),
   c5_oob_amended zeroEnv [63, 20, 0] 1 3 (initLoopState ⟨[], 0, 8192, 8192⟩ 0)
     (Or.inl (by decide))⟩

end Mus
